import Mathlib

/-!
Verification of the synthesis-route-finder repository's core text-processing
and persistence logic, shallowly embedded from the Python sources:

* `synthesis_engine/analysis.py` — API-name normalisation, name-variant
  generation, and the synthesis/formulation patent classifier.
* `synthesis_engine/api_buyer_finder.py` and
  `synthesis_route_finder/synthesis_engine/api_buyer_finder.py` — the
  markdown-table parser (identical in both copies) and the row validator.
* `synthesis_engine/api_manufacturer_service.py` — the manufacturer store:
  bulk insert-or-ignore and the case-insensitive substring query.
* `synthesis_engine/api_manufacturer_discovery.py` — the discovery entry
  point with its input-validation boundary.

Python strings are modelled as `List Char` (`Str`); the Python string
operations used by the code (`lower`, `strip`, `count`, `replace`,
`removeprefix`, `split`, slicing) are embedded one-for-one below.
-/

namespace SRF

/-- A Python string, modelled as a list of characters. -/
abbrev Str := List Char

/-- Build a `Str` from a Lean string literal. -/
def str (s : String) : Str := s.data

/-- The characters stripped by Python's `str.strip()` (ASCII whitespace). -/
def isPySpace (c : Char) : Bool :=
  c == ' ' || c == '\t' || c == '\n' || c == '\r' || c == '\x0b' || c == '\x0c'

/-- Python `s.strip()`: remove leading and trailing whitespace. -/
def pyStrip (s : Str) : Str :=
  ((s.dropWhile isPySpace).reverse.dropWhile isPySpace).reverse

/-- Is `c` an ASCII uppercase letter (code 65–90)? -/
def isUpperAscii (c : Char) : Bool :=
  decide (65 ≤ c.toNat) && decide (c.toNat ≤ 90)

/-- Python `str.lower()` on a single character (ASCII range, which is all the
source ever feeds it). -/
def pyLowerChar (c : Char) : Char :=
  if h : 65 ≤ c.toNat ∧ c.toNat ≤ 90 then
    ⟨c.val + 32, by
      have hct : c.toNat = c.val.toNat := rfl
      have h90 : c.val.toNat ≤ 90 := hct ▸ h.2
      have hv : (c.val + 32).toNat = c.val.toNat + 32 := by
        rw [UInt32.toNat_add]
        simp only [UInt32.toNat_ofNat, UInt32.size]
        omega
      exact Or.inl (by omega)⟩
  else c

/-- Python `s.lower()`. -/
def pyLower (s : Str) : Str := s.map pyLowerChar

/-- Python `needle in hay` for strings: substring containment. -/
def isSubstr (needle : Str) : Str → Bool
  | [] => needle.isEmpty
  | c :: rest => needle.isPrefixOf (c :: rest) || isSubstr needle rest

/-- Fuel-driven scan behind `pyCount`: counts non-overlapping occurrences of
a non-empty `needle`, advancing past each match (Python `str.count`).  The
fuel is the length of the scanned string, which bounds the number of steps. -/
def pyCountAux (needle : Str) : Nat → Str → Nat
  | _, [] => 0
  | 0, _ => 0
  | fuel + 1, c :: rest =>
    if needle.isPrefixOf (c :: rest) then
      1 + pyCountAux needle fuel (List.drop needle.length (c :: rest))
    else
      pyCountAux needle fuel rest

/-- Python `hay.count(needle)`: non-overlapping occurrence count.  On an
empty needle Python returns `len(hay) + 1`. -/
def pyCount (needle hay : Str) : Nat :=
  match needle with
  | [] => hay.length + 1
  | _ :: _ => pyCountAux needle hay.length hay

/-- Fuel-driven scan behind `pyReplace` for a non-empty `old`: replace each
non-overlapping occurrence of `old` with `new`, left to right. -/
def pyReplaceAux (old new : Str) : Nat → Str → Str
  | _, [] => []
  | 0, s => s
  | fuel + 1, c :: rest =>
    if old.isPrefixOf (c :: rest) then
      new ++ pyReplaceAux old new fuel (List.drop old.length (c :: rest))
    else
      c :: pyReplaceAux old new fuel rest

/-- Python `s.replace(old, new)`.  An empty `old` makes Python interleave
`new` around every character. -/
def pyReplace (old new s : Str) : Str :=
  match old with
  | [] => new ++ s.foldr (fun c acc => c :: (new ++ acc)) []
  | _ :: _ => pyReplaceAux old new s.length s

/-- Python `s.removeprefix(p)`. -/
def dropPfx (p s : Str) : Str :=
  if p.isPrefixOf s then s.drop p.length else s

/-- Python slice `s[-n:]`: the last `n` characters (the whole string when
`len(s) < n`). -/
def takeRight (n : Nat) (s : Str) : Str := s.drop (s.length - n)

/-! ## Text Normalizer (`analysis.py`, `normalize_api_name` /
`_generate_api_variants`) -/

/-- The ordered salt-suffix list from `normalize_api_name`. -/
def saltSuffixes : List Str :=
  [str " hcl", str " hydrochloride", str " sulfate", str " phosphate",
   str " tartrate", str " maleate", str " fumarate", str " citrate",
   str " succinate", str " acetate"]

/-- The `for suffix in salt_suffixes: if normalized.endswith(suffix): ...
break` scan: the first suffix in list order that the name ends with. -/
def firstSaltSuffix (normalized : Str) : List Str → Option Str
  | [] => none
  | suf :: rest =>
    if suf.isSuffixOf normalized then some suf else firstSaltSuffix normalized rest

/-- `SynthesisAnalyzer.normalize_api_name` (analysis.py:98-109).  Returns
`(base_name, normalized)` where `normalized = api_name.lower()` and
`base_name` removes every occurrence of the first matching salt suffix via
`str.replace` and then strips the result. -/
def normalize_api_name (api_name : Str) : Str × Str :=
  let normalized := pyLower api_name
  let base_name :=
    match firstSaltSuffix normalized saltSuffixes with
    | some suf => pyStrip (pyReplace suf [] normalized)
    | none => normalized
  (base_name, normalized)

/-- `re.sub(r'[^a-z0-9]', '', s)`: keep only lowercase ASCII letters and
digits. -/
def alnumOnly (s : Str) : Str :=
  s.filter (fun c => (decide (97 ≤ c.toNat) && decide (c.toNat ≤ 122)) ||
                     (decide (48 ≤ c.toNat) && decide (c.toNat ≤ 57)))

/-- The prefix-candidate list from `_generate_api_variants`. -/
def pfxCandidates : List Str :=
  [str "iso", str "des", str "levo", str "d-", str "l-", str "nor",
   str "de", str "di"]

/-- `SynthesisAnalyzer._generate_api_variants` (analysis.py:111-140).  The
Python set of variants is modelled as a list (possibly with duplicate
entries — only membership is ever used downstream); elements are added in
source order and empty strings are filtered at the end, as in the code. -/
def _generate_api_variants (api_name : Str) : List Str :=
  let p := normalize_api_name api_name
  let base_name := p.1
  let full_name := p.2
  let cleaned := alnumOnly base_name
  let v1 : List Str := [base_name, full_name] ++
    (if cleaned.isEmpty then [] else [cleaned])
  let v2 := v1 ++ pfxCandidates.filterMap (fun pc =>
    let stripped := dropPfx (pc.filter (fun c => !(c == '-'))) cleaned
    if !stripped.isEmpty && stripped != cleaned then some stripped else none)
  let v3 := v2 ++
    (if (str "azole").isSuffixOf cleaned && decide (6 < cleaned.length) then
      [takeRight 8 cleaned, pyReplace (str "azole") (str "conazole") cleaned]
     else [])
  let v4 := v3 ++
    (if decide (6 < cleaned.length) then
      [cleaned.take (cleaned.length - 2), takeRight 6 cleaned]
     else [])
  v4.filter (fun v => !v.isEmpty)

example : normalize_api_name (str "Aspirin HCl") = (str "aspirin", str "aspirin hcl") := by decide
example : normalize_api_name (str " Aspirin") = (str " aspirin", str " aspirin") := by decide
example : normalize_api_name (str "a citrate b citrate") =
    (str "a b", str "a citrate b citrate") := by decide
example : str "abc" ∈ _generate_api_variants (str "isoabc") := by decide

/-! ## Character-level facts used for the Normalizer invariants -/

/-- `s` contains no ASCII uppercase letter. -/
def noUpper (s : Str) : Prop := ∀ c ∈ s, isUpperAscii c = false

theorem isUpperAscii_pyLowerChar (c : Char) : isUpperAscii (pyLowerChar c) = false := by
  unfold pyLowerChar
  split
  · next h =>
    have hct : c.toNat = c.val.toNat := rfl
    have h90 : c.val.toNat ≤ 90 := hct ▸ h.2
    have hv : (c.val + 32).toNat = c.val.toNat + 32 := by
      rw [UInt32.toNat_add]
      simp only [UInt32.toNat_ofNat, UInt32.size]
      omega
    have h65 : 65 ≤ c.val.toNat := hct ▸ h.1
    show (decide (65 ≤ (c.val + 32).toNat) && decide ((c.val + 32).toNat ≤ 90)) = false
    rw [hv]
    simp only [Bool.and_eq_false_iff, decide_eq_false_iff_not]
    omega
  · next h =>
    simp only [isUpperAscii, Bool.and_eq_false_iff, decide_eq_false_iff_not]
    omega

theorem pyLowerChar_eq_self {c : Char} (h : isUpperAscii c = false) :
    pyLowerChar c = c := by
  unfold pyLowerChar
  rw [dif_neg]
  simp only [isUpperAscii, Bool.and_eq_false_iff, decide_eq_false_iff_not] at h
  omega

theorem noUpper_pyLower (s : Str) : noUpper (pyLower s) := by
  intro c hc
  rcases List.mem_map.mp hc with ⟨a, -, rfl⟩
  exact isUpperAscii_pyLowerChar a

theorem pyLower_eq_self {s : Str} (h : noUpper s) : pyLower s = s := by
  induction s with
  | nil => rfl
  | cons c t ih =>
    show pyLowerChar c :: pyLower t = c :: t
    rw [pyLowerChar_eq_self (h c (by simp)), ih (fun a ha => h a (by simp [ha]))]

theorem mem_of_mem_dropWhile {α : Type} {p : α → Bool} {c : α} :
    ∀ {s : List α}, c ∈ s.dropWhile p → c ∈ s := by
  intro s
  induction s with
  | nil => intro h; exact h
  | cons a t ih =>
    intro h
    rw [List.dropWhile_cons] at h
    split at h
    · exact List.mem_cons_of_mem a (ih h)
    · exact h

theorem mem_pyStrip {c : Char} {s : Str} (h : c ∈ pyStrip s) : c ∈ s := by
  unfold pyStrip at h
  rw [List.mem_reverse] at h
  have h2 := mem_of_mem_dropWhile h
  rw [List.mem_reverse] at h2
  exact mem_of_mem_dropWhile h2

theorem mem_pyReplaceAux {c : Char} {old new : Str} :
    ∀ {fuel : Nat} {s : Str}, c ∈ pyReplaceAux old new fuel s → c ∈ new ∨ c ∈ s := by
  intro fuel
  induction fuel with
  | zero =>
    intro s h
    cases s with
    | nil => exact absurd h (by simp [pyReplaceAux])
    | cons a t => exact Or.inr h
  | succ n ih =>
    intro s h
    cases s with
    | nil => exact absurd h (by simp [pyReplaceAux])
    | cons a t =>
      rw [pyReplaceAux] at h
      split at h
      · rcases List.mem_append.mp h with h1 | h1
        · exact Or.inl h1
        · rcases ih h1 with h2 | h2
          · exact Or.inl h2
          · exact Or.inr (List.mem_of_mem_drop h2)
      · rcases List.mem_cons.mp h with h1 | h1
        · exact Or.inr (h1 ▸ List.mem_cons_self a t)
        · rcases ih h1 with h2 | h2
          · exact Or.inl h2
          · exact Or.inr (List.mem_cons_of_mem a h2)

theorem mem_pyReplace {c : Char} {old new s : Str} (h : c ∈ pyReplace old new s) :
    c ∈ new ∨ c ∈ s := by
  unfold pyReplace at h
  match old with
  | [] =>
    rcases List.mem_append.mp h with h1 | h1
    · exact Or.inl h1
    · clear h
      induction s with
      | nil => exact absurd h1 (by simp)
      | cons a t ih =>
        simp only [List.foldr_cons] at h1
        rcases List.mem_cons.mp h1 with h2 | h2
        · exact Or.inr (h2 ▸ List.mem_cons_self a t)
        · rcases List.mem_append.mp h2 with h3 | h3
          · exact Or.inl h3
          · rcases ih h3 with h4 | h4
            · exact Or.inl h4
            · exact Or.inr (List.mem_cons_of_mem a h4)
  | o :: os => exact mem_pyReplaceAux h

theorem noUpper_alnumOnly (s : Str) : noUpper (alnumOnly s) := by
  intro c hc
  have hp := List.of_mem_filter hc
  simp only [Bool.or_eq_true, Bool.and_eq_true, decide_eq_true_eq] at hp
  simp only [isUpperAscii, Bool.and_eq_false_iff, decide_eq_false_iff_not]
  omega

theorem noUpper_base (api_name : Str) : noUpper (normalize_api_name api_name).1 := by
  dsimp only [normalize_api_name]
  split
  · intro c hc
    have h1 := mem_pyStrip hc
    rcases mem_pyReplace h1 with h2 | h2
    · exact absurd h2 (List.not_mem_nil c)
    · exact noUpper_pyLower api_name c h2
  · exact noUpper_pyLower api_name

theorem mem_dropPfx {c : Char} {p s : Str} (h : c ∈ dropPfx p s) : c ∈ s := by
  unfold dropPfx at h
  split at h
  · exact List.mem_of_mem_drop h
  · exact h

/-- Case analysis on how a member of `_generate_api_variants` arose: every
variant is the base name, the full name, the alnum-only projection, a
prefix-stripped form, or (only when the projection is longer than 6
characters) one of the azole/truncation forms. -/
theorem variants_all (api : Str) (P : Str → Prop)
    (hb : P (normalize_api_name api).1)
    (hf : P (normalize_api_name api).2)
    (hcl : P (alnumOnly (normalize_api_name api).1))
    (hpfx : ∀ pc ∈ pfxCandidates,
      P (dropPfx (pc.filter (fun c => !(c == '-'))) (alnumOnly (normalize_api_name api).1)))
    (haz1 : 6 < (alnumOnly (normalize_api_name api).1).length →
      P (takeRight 8 (alnumOnly (normalize_api_name api).1)))
    (haz2 : 6 < (alnumOnly (normalize_api_name api).1).length →
      P (pyReplace (str "azole") (str "conazole") (alnumOnly (normalize_api_name api).1)))
    (htr1 : 6 < (alnumOnly (normalize_api_name api).1).length →
      P ((alnumOnly (normalize_api_name api).1).take
          ((alnumOnly (normalize_api_name api).1).length - 2)))
    (htr2 : 6 < (alnumOnly (normalize_api_name api).1).length →
      P (takeRight 6 (alnumOnly (normalize_api_name api).1))) :
    ∀ v ∈ _generate_api_variants api, P v := by
  intro v hv
  dsimp only [_generate_api_variants] at hv
  have hv4 := (List.mem_filter.mp hv).1
  rcases List.mem_append.mp hv4 with hA | hI3
  · rcases List.mem_append.mp hA with hB | hI2
    · rcases List.mem_append.mp hB with hC | hFm
      · rcases List.mem_append.mp hC with hBf | hI1
        · rcases List.mem_cons.mp hBf with rfl | hBf2
          · exact hb
          · rcases List.mem_cons.mp hBf2 with rfl | hBf3
            · exact hf
            · exact absurd hBf3 (List.not_mem_nil v)
        · split at hI1
          · exact absurd hI1 (List.not_mem_nil v)
          · rcases List.mem_singleton.mp hI1 with rfl
            exact hcl
      · rcases List.mem_filterMap.mp hFm with ⟨pc, hpc, hsome⟩
        split at hsome
        · cases hsome
          exact hpfx pc hpc
        · cases hsome
    · split at hI2
      · next hcond =>
        have hlen : 6 < (alnumOnly (normalize_api_name api).1).length := by
          simp only [Bool.and_eq_true, decide_eq_true_eq] at hcond
          exact hcond.2
        rcases List.mem_cons.mp hI2 with rfl | hI2b
        · exact haz1 hlen
        · rcases List.mem_cons.mp hI2b with rfl | hI2c
          · exact haz2 hlen
          · exact absurd hI2c (List.not_mem_nil v)
      · exact absurd hI2 (List.not_mem_nil v)
  · split at hI3
    · next hcond =>
      have hlen : 6 < (alnumOnly (normalize_api_name api).1).length :=
        of_decide_eq_true hcond
      rcases List.mem_cons.mp hI3 with rfl | hI3b
      · exact htr1 hlen
      · rcases List.mem_cons.mp hI3b with rfl | hI3c
        · exact htr2 hlen
        · exact absurd hI3c (List.not_mem_nil v)
    · exact absurd hI3 (List.not_mem_nil v)

/-! ## Claim C4 -/

/-- C4, counterexample: the claim says every member of the variant set has no
whitespace, but for the two-word name "a b" the full name "a b" (which the
code never trims or de-spaces) is itself a member and contains a space. -/
theorem variants_whitespace_cex :
    str "a b" ∈ _generate_api_variants (str "a b") ∧ (str "a b").any isPySpace = true := by
  decide

/-- C4 (amended): for every non-empty API name, `_generate_api_variants`
returns a non-empty collection all of whose members are lowercase (members
may contain whitespace exactly where the input did). -/
theorem variants_nonempty_all_lower (api_name : Str) (h : api_name ≠ []) :
    _generate_api_variants api_name ≠ [] ∧
    ∀ v ∈ _generate_api_variants api_name, pyLower v = v := by
  constructor
  · have hfne : (normalize_api_name api_name).2 ≠ [] := by
      dsimp only [normalize_api_name]
      cases api_name with
      | nil => exact absurd rfl h
      | cons c t => simp [pyLower]
    apply List.ne_nil_of_mem (a := (normalize_api_name api_name).2)
    dsimp only [_generate_api_variants]
    apply List.mem_filter.mpr
    constructor
    · exact List.mem_append.mpr (.inl (List.mem_append.mpr (.inl
        (List.mem_append.mpr (.inl (List.mem_append.mpr (.inl (by simp))))))))
    · simpa using hfne
  · intro v hv
    refine pyLower_eq_self (variants_all api_name noUpper (noUpper_base api_name)
      ?_ (noUpper_alnumOnly _) ?_ ?_ ?_ ?_ ?_ v hv)
    · exact noUpper_pyLower api_name
    · intro pc _ c hc
      exact noUpper_alnumOnly _ c (mem_dropPfx hc)
    · intro _ c hc
      exact noUpper_alnumOnly _ c (List.mem_of_mem_drop hc)
    · intro _ c hc
      rcases mem_pyReplace hc with h1 | h1
      · have hcz : ∀ a ∈ str "conazole", isUpperAscii a = false := by decide
        exact hcz c h1
      · exact noUpper_alnumOnly _ c h1
    · intro _ c hc
      exact noUpper_alnumOnly _ c ((List.take_sublist _ _).subset hc)
    · intro _ c hc
      exact noUpper_alnumOnly _ c (List.mem_of_mem_drop hc)

/-- C4 witness: the amended theorem applied to the concrete name "aspirin". -/
theorem variants_nonempty_all_lower_w :
    _generate_api_variants (str "aspirin") ≠ [] ∧
    ∀ v ∈ _generate_api_variants (str "aspirin"), pyLower v = v :=
  variants_nonempty_all_lower (str "aspirin") (by decide)

/-! ## Claim C5 -/

/-- C5, counterexample: the claim says `full_name` is the *trimmed* lowercase
input and that only the single end-occurrence of the salt suffix is removed.
The code does neither: `normalize_api_name` never trims (" Aspirin" keeps its
leading space), and it removes *every* occurrence of the matched suffix via
`str.replace` ("a citrate b citrate" loses both " citrate" occurrences,
yielding "a b" instead of the claimed "a citrate b"). -/
theorem normalize_cex :
    normalize_api_name (str " Aspirin") = (str " aspirin", str " aspirin") ∧
    str " aspirin" ≠ str "aspirin" ∧
    normalize_api_name (str "a citrate b citrate") =
      (str "a b", str "a citrate b citrate") ∧
    str "a b" ≠ str "a citrate b" := by
  decide

/-- Modelled from the amended claim: `full_name` is the lowercase input
(without trimming); `base_name` takes the first suffix in salt-list order
that `full_name` ends with, removes every occurrence of it, and strips the
surrounding whitespace; `base_name = full_name` when no suffix matches. -/
def normalizeAmendedSpec (api_name : Str) : Str × Str :=
  let full := pyLower api_name
  match saltSuffixes.find? (fun suf => suf.isSuffixOf full) with
  | some suf => (pyStrip (pyReplace suf [] full), full)
  | none => (full, full)

theorem firstSaltSuffix_eq_find (n : Str) (l : List Str) :
    firstSaltSuffix n l = l.find? (fun suf => suf.isSuffixOf n) := by
  induction l with
  | nil => rfl
  | cons a t ih =>
    rw [firstSaltSuffix, List.find?_cons]
    by_cases hsuf : a.isSuffixOf n
    · simp [hsuf]
    · simp only [Bool.not_eq_true] at hsuf
      simp [hsuf, ih]

/-- C5 (amended): `normalize_api_name` returns the untrimmed lowercase input
as `full_name`, and `base_name` removes every occurrence of the first
list-order matching salt suffix, stripping whitespace afterwards. -/
theorem normalize_amended (api_name : Str) :
    normalize_api_name api_name = normalizeAmendedSpec api_name := by
  dsimp only [normalize_api_name, normalizeAmendedSpec]
  rw [firstSaltSuffix_eq_find]
  cases saltSuffixes.find? (fun suf => suf.isSuffixOf (pyLower api_name)) <;> rfl

/-! ## Claim C6 -/

/-- C6, counterexample: for "isoabc" the cleaned form has length 6 (≤ 6), yet
the variant set contains the prefix-stripped form "abc", which is none of
base name, full name, or the alnum-only projection — contradicting the claim
that short names contribute only those three. -/
theorem variants_short_cex :
    (alnumOnly (normalize_api_name (str "isoabc")).1).length ≤ 6 ∧
    str "abc" ∈ _generate_api_variants (str "isoabc") ∧
    str "abc" ≠ (normalize_api_name (str "isoabc")).1 ∧
    str "abc" ≠ (normalize_api_name (str "isoabc")).2 ∧
    str "abc" ≠ alnumOnly (normalize_api_name (str "isoabc")).1 := by
  decide

/-- C6 (amended): when the cleaned (alnum-only) form of the name has at most
6 characters, every variant is the base name, the full name, the alnum-only
projection, or a prefix-stripped form of the projection — no truncated and no
azole-derived variants appear. -/
theorem variants_short_name (api_name : Str)
    (hshort : (alnumOnly (normalize_api_name api_name).1).length ≤ 6) :
    ∀ v ∈ _generate_api_variants api_name,
      v = (normalize_api_name api_name).1 ∨ v = (normalize_api_name api_name).2 ∨
      v = alnumOnly (normalize_api_name api_name).1 ∨
      ∃ pc ∈ pfxCandidates,
        v = dropPfx (pc.filter (fun c => !(c == '-')))
              (alnumOnly (normalize_api_name api_name).1) := by
  apply variants_all
  · exact Or.inl rfl
  · exact Or.inr (Or.inl rfl)
  · exact Or.inr (Or.inr (Or.inl rfl))
  · exact fun pc hpc => Or.inr (Or.inr (Or.inr ⟨pc, hpc, rfl⟩))
  · intro h6; exact absurd h6 (by omega)
  · intro h6; exact absurd h6 (by omega)
  · intro h6; exact absurd h6 (by omega)
  · intro h6; exact absurd h6 (by omega)

/-- C6 witness: the amended theorem applied to the concrete short name "ab"
and its variant "ab". -/
theorem variants_short_name_w :
    str "ab" = (normalize_api_name (str "ab")).1 ∨
    str "ab" = (normalize_api_name (str "ab")).2 ∨
    str "ab" = alnumOnly (normalize_api_name (str "ab")).1 ∨
    ∃ pc ∈ pfxCandidates,
      str "ab" = dropPfx (pc.filter (fun c => !(c == '-')))
        (alnumOnly (normalize_api_name (str "ab")).1) :=
  variants_short_name (str "ab") (by decide) (str "ab") (by decide)

/-! ## Relevance Classifier (`analysis.py`, `_is_synthesis_patent_enhanced`) -/

/-- The synthesis keyword list (analysis.py:452-456). -/
def synthesis_keywords : List Str :=
  [str "synthesis", str "preparation", str "synthetic route", str "chemical process",
   str "manufacturing process", str "reaction", str "intermediate", str "coupling",
   str "reagent", str "procedure", str "example", str "step", str "stage", str "method"]

/-- The formulation keyword list (analysis.py:458-462). -/
def formulation_keywords : List Str :=
  [str "tablet", str "capsule", str "formulation", str "pharmaceutical composition",
   str "solid dosage", str "excipient", str "binder", str "disintegrant", str "lubricant",
   str "coating", str "granulation", str "compression", str "drug delivery", str "dosage form"]

/-- `self.SYNTHESIS_KEYWORD_THRESHOLD` (analysis.py:95). -/
def SYNTHESIS_KEYWORD_THRESHOLD : Nat := 3

structure ClassificationResult where
  synthesis_score : Nat
  formulation_score : Nat
  api_present : Bool
  fuzzy_api_present : Bool
  decision : Bool

/-- `SynthesisAnalyzer._is_synthesis_patent_enhanced` (analysis.py:447-503).
The float ratio test `synthesis_score >= formulation_score * 1.2`
(`SYNTHESIS_FORMULATION_RATIO = 1.2`, analysis.py:96) is embedded exactly as
the rational comparison `6 * formulation_score <= 5 * synthesis_score`; the
Python `for`/`break` scans over the variant set become `List.any`, and the
two-element set `{variant[:-2], variant[-6:]}` of fuzzy probes becomes the
disjunction of the two probes (identical under `any`). -/
def _is_synthesis_patent_enhanced (text api_name : Str) : ClassificationResult :=
  let text_lower := pyLower text
  let api_variants := _generate_api_variants api_name
  let synthesis_score := (synthesis_keywords.map (fun k => pyCount k text_lower)).sum
  let formulation_score := (formulation_keywords.map (fun k => pyCount k text_lower)).sum
  let api_present := api_variants.any (fun v => isSubstr v text_lower)
  let fuzzy_api_present :=
    if api_present then false
    else api_variants.any (fun v =>
      if v.length < 6 then false
      else
        let p1 := v.take (v.length - 2)
        let p2 := takeRight 6 v
        (!p1.isEmpty && isSubstr p1 text_lower) || (!p2.isEmpty && isSubstr p2 text_lower))
  let decision :=
    decide (SYNTHESIS_KEYWORD_THRESHOLD ≤ synthesis_score) &&
    ((api_present || fuzzy_api_present) &&
     (decide (formulation_score = 0) ||
      decide (6 * formulation_score ≤ 5 * synthesis_score)))
  ⟨synthesis_score, formulation_score, api_present, fuzzy_api_present, decision⟩

/-- The decision formula exactly as claim C2 words it: threshold on the
keyword-count sum, variant presence or fuzzy presence (fuzzy only probed when
plain presence fails, each probe on variants of length ≥ 6 testing the
first-(len−2) prefix slice or the last-6 suffix slice), and the
formulation-ratio guard. -/
def classifierDecisionSpec (text api_name : Str) : Bool :=
  let tl := pyLower text
  let vs := _generate_api_variants api_name
  let ss := (synthesis_keywords.map (fun k => pyCount k tl)).sum
  let fs := (formulation_keywords.map (fun k => pyCount k tl)).sum
  let apiP := vs.any (fun v => isSubstr v tl)
  let fuzzy := !apiP && vs.any (fun v =>
    decide (6 ≤ v.length) &&
    (isSubstr (v.take (v.length - 2)) tl || isSubstr (takeRight 6 v) tl))
  decide (3 ≤ ss) && ((apiP || fuzzy) && (decide (fs = 0) || decide (6 * fs ≤ 5 * ss)))

theorem any_congr_bool {α : Type} (l : List α) {f g : α → Bool}
    (h : ∀ a ∈ l, f a = g a) : l.any f = l.any g := by
  induction l with
  | nil => rfl
  | cons a t ih =>
    simp only [List.any_cons]
    rw [h a (List.mem_cons_self a t), ih (fun b hb => h b (List.mem_cons_of_mem a hb))]

/-- C2: the classifier decision equals the claim's conjunction formula. -/
theorem classifier_decision_eq (text api_name : Str) :
    (_is_synthesis_patent_enhanced text api_name).decision =
      classifierDecisionSpec text api_name := by
  dsimp only [_is_synthesis_patent_enhanced, classifierDecisionSpec,
    SYNTHESIS_KEYWORD_THRESHOLD]
  have hfz : (if (_generate_api_variants api_name).any
        (fun v => isSubstr v (pyLower text)) then false
      else (_generate_api_variants api_name).any (fun v =>
        if v.length < 6 then false
        else
          (!(v.take (v.length - 2)).isEmpty && isSubstr (v.take (v.length - 2)) (pyLower text)) ||
          (!(takeRight 6 v).isEmpty && isSubstr (takeRight 6 v) (pyLower text)))) =
      (!(_generate_api_variants api_name).any (fun v => isSubstr v (pyLower text)) &&
       (_generate_api_variants api_name).any (fun v =>
        decide (6 ≤ v.length) &&
        (isSubstr (v.take (v.length - 2)) (pyLower text) ||
         isSubstr (takeRight 6 v) (pyLower text)))) := by
    by_cases hap : (_generate_api_variants api_name).any
        (fun v => isSubstr v (pyLower text)) = true
    · simp [hap]
    · simp only [Bool.not_eq_true] at hap
      simp only [hap, if_false, Bool.not_false, Bool.true_and]
      apply any_congr_bool
      intro v _
      by_cases hlen : v.length < 6
      · have : decide (6 ≤ v.length) = false := by
          simp only [decide_eq_false_iff_not]; omega
        simp [hlen, this]
      · have h6 : 6 ≤ v.length := by omega
        have hp1 : (v.take (v.length - 2)).isEmpty = false := by
          cases hq : v.take (v.length - 2) with
          | nil =>
            have := congrArg List.length hq
            simp only [List.length_take, List.length_nil] at this
            omega
          | cons a t => rfl
        have hp2 : (takeRight 6 v).isEmpty = false := by
          cases hq : takeRight 6 v with
          | nil =>
            have := congrArg List.length hq
            simp only [takeRight, List.length_drop, List.length_nil] at this
            omega
          | cons a t => rfl
        have : decide (6 ≤ v.length) = true := by
          simp only [decide_eq_true_eq]; omega
        simp [hlen, this, hp1, hp2]
  rw [hfz]

/-! ## Markdown Table Parser (`api_buyer_finder.py`,
`enhanced_parse_markdown_table`; identical in both copies of the file) -/

/-- Python `s.split(sep)` for a one-character separator. -/
def splitSep (sep : Char) : Str → List Str
  | [] => [[]]
  | c :: rest =>
    let r := splitSep sep rest
    if c == sep then [] :: r
    else
      match r with
      | [] => [[c]]
      | h :: t => (c :: h) :: t

/-- A parsed table: the pandas `DataFrame` produced by the parser, reduced to
its column labels and cell rows; `pd.DataFrame()` is `⟨[], []⟩`. -/
structure ParsedTable where
  headers : List Str
  rows : List (List Str)
deriving DecidableEq

def emptyTable : ParsedTable := ⟨[], []⟩

/-- The table-section collection loop (lines 391-402): gather stripped
pipe-containing lines that are not code-fence markers, tolerate blank lines
once inside the table, stop at the first non-blank pipe-free line after the
table started. -/
def collectTableLines : Bool → List Str → List Str
  | _, [] => []
  | inT, line :: rest =>
    if line.contains '|' && !((str "```").isPrefixOf (pyStrip line)) then
      pyStrip line :: collectTableLines true rest
    else if inT && (pyStrip line).isEmpty then
      collectTableLines inT rest
    else if inT && !(line.contains '|') then
      []
    else
      collectTableLines inT rest

/-- `[h.strip() for h in line.split("|")[1:-1]]`. -/
def splitCells (line : Str) : List Str :=
  (((splitSep '|' line).drop 1).dropLast).map pyStrip

/-- `enhanced_parse_markdown_table` (api_buyer_finder.py:382-433 and its
sibling copy at 355-406). -/
def enhanced_parse_markdown_table (markdown : Str) : ParsedTable :=
  if markdown.isEmpty || (pyStrip markdown).isEmpty then emptyTable
  else
    let lines := splitSep '\n' (pyStrip markdown)
    match collectTableLines false lines with
    | [] => emptyTable
    | [_] => emptyTable
    | header_line :: _sep :: data_lines =>
      let headers := splitCells header_line
      if data_lines.isEmpty then emptyTable
      else
        let data := data_lines.filterMap (fun row =>
          let cols := splitCells row
          if cols.length == headers.length then some cols else none)
        if data.isEmpty then emptyTable else ⟨headers, data⟩

/-- Join a list of strings with a separator (used only by the synthetic
renderer below). -/
def joinSep (sep : Str) : List Str → Str
  | [] => []
  | [x] => x
  | x :: y :: t => x ++ sep ++ joinSep sep (y :: t)

/-- One synthetic markdown table row: `| c1 | c2 | ... |`. -/
def renderRow (cells : List Str) : Str :=
  '|' :: ' ' :: (joinSep (str " | ") cells ++ [' ', '|'])

/-- The synthetic separator line under the header. -/
def sepRow : Str := str "|---|"

/-- A synthetically constructed markdown table: header line, separator line,
one line per data row, joined by newlines. -/
def renderTable (headers : List Str) (rows : List (List Str)) : Str :=
  joinSep ['\n'] (renderRow headers :: sepRow :: rows.map renderRow)

example :
    enhanced_parse_markdown_table
      (renderTable [str "Company", str "Form"]
        [[str "Acme", str "Tablet"], [str "OnlyOne"], [str "Zed", str "Cap"]]) =
    ⟨[str "Company", str "Form"],
     [[str "Acme", str "Tablet"], [str "Zed", str "Cap"]]⟩ := by decide

example :
    enhanced_parse_markdown_table (str "no table here at all") = emptyTable := by decide

example :
    enhanced_parse_markdown_table
      (str "Intro prose.\n| A | B |\n|---|---|\n| 1 | 2 |\nTrailing prose.") =
    ⟨[str "A", str "B"], [[str "1", str "2"]]⟩ := by decide

/-! ## Parser round-trip support lemmas -/

theorem pyStrip_cons_space (s : Str) : pyStrip (' ' :: s) = pyStrip s := by
  unfold pyStrip
  rw [List.dropWhile_cons, if_pos (by decide)]

theorem pyStrip_append_space (s : Str) : pyStrip (s ++ [' ']) = pyStrip s := by
  unfold pyStrip
  rw [List.dropWhile_append]
  cases hd : s.dropWhile isPySpace with
  | nil =>
    have h1 : List.dropWhile isPySpace [' '] = ([] : Str) := by decide
    simp [h1]
  | cons h t =>
    simp only [List.isEmpty_cons, Bool.false_eq_true, if_false]
    rw [show ((h :: t) ++ [' ']).reverse = ' ' :: (h :: t).reverse from by simp]
    rw [List.dropWhile_cons, if_pos (by decide)]

theorem pyStrip_pad {c : Str} (h : pyStrip c = c) :
    pyStrip (' ' :: (c ++ [' '])) = c := by
  rw [pyStrip_cons_space, pyStrip_append_space, h]

theorem pyStrip_pipe_wrap (m : Str) : pyStrip ('|' :: m ++ ['|']) = '|' :: m ++ ['|'] := by
  have hsh : '|' :: m ++ ['|'] = '|' :: (m ++ ['|']) := by simp
  rw [hsh]
  unfold pyStrip
  rw [List.dropWhile_cons, if_neg (by decide)]
  rw [show ('|' :: (m ++ ['|'])).reverse = '|' :: ('|' :: m).reverse from by simp]
  rw [List.dropWhile_cons, if_neg (by decide)]
  simp

theorem splitSep_ne_nil (sep : Char) (s : Str) : splitSep sep s ≠ [] := by
  cases s with
  | nil => simp [splitSep]
  | cons c rest =>
    rw [splitSep]
    split
    · simp
    · split <;> simp

theorem splitSep_no_sep {sep : Char} {s : Str} (h : ¬ sep ∈ s) : splitSep sep s = [s] := by
  induction s with
  | nil => rfl
  | cons c rest ih =>
    have hc : (c == sep) = false := by
      simp only [beq_eq_false_iff_ne, ne_eq]
      intro rfl_eq
      exact h (rfl_eq ▸ List.mem_cons_self c rest)
    rw [splitSep, if_neg (by simp [hc])]
    rw [ih (fun hm => h (List.mem_cons_of_mem c hm))]

theorem splitSep_append_cons {sep : Char} (xs : Str) (h : ¬ sep ∈ xs) (rest : Str) :
    splitSep sep (xs ++ sep :: rest) = xs :: splitSep sep rest := by
  induction xs with
  | nil => simp [splitSep]
  | cons c t ih =>
    have hc : (c == sep) = false := by
      simp only [beq_eq_false_iff_ne, ne_eq]
      intro rfl_eq
      exact h (rfl_eq ▸ List.mem_cons_self c t)
    rw [List.cons_append, splitSep, if_neg (by simp [hc])]
    rw [ih (fun hm => h (List.mem_cons_of_mem c hm))]

theorem splitSep_joinSep (sep : Char) (l : List Str) (hne : l ≠ [])
    (hall : ∀ x ∈ l, ¬ sep ∈ x) :
    splitSep sep (joinSep [sep] l) = l := by
  induction l with
  | nil => exact absurd rfl hne
  | cons x t ih =>
    cases t with
    | nil => rw [joinSep]; exact splitSep_no_sep (hall x (by simp))
    | cons y u =>
      rw [joinSep]
      rw [show x ++ [sep] ++ joinSep [sep] (y :: u) = x ++ sep :: joinSep [sep] (y :: u) from by
        simp]
      rw [splitSep_append_cons x (hall x (by simp))]
      rw [ih (by simp) (fun z hz => hall z (by simp [hz]))]

theorem mem_joinSep {c : Char} {sep : Str} :
    ∀ {l : List Str}, c ∈ joinSep sep l → c ∈ sep ∨ ∃ x ∈ l, c ∈ x := by
  intro l
  induction l with
  | nil => intro h; exact absurd h (List.not_mem_nil c)
  | cons x t ih =>
    cases t with
    | nil => intro h; exact Or.inr ⟨x, by simp, h⟩
    | cons y u =>
      intro h
      rw [joinSep] at h
      rcases List.mem_append.mp h with h1 | h1
      · rcases List.mem_append.mp h1 with h2 | h2
        · exact Or.inr ⟨x, by simp, h2⟩
        · exact Or.inl h2
      · rcases ih h1 with h2 | ⟨z, hz, hcz⟩
        · exact Or.inl h2
        · exact Or.inr ⟨z, by simp [hz], hcz⟩

theorem joinSep_pipe_shape (sep : Str) (l : List Str) (hne : l ≠ [])
    (hall : ∀ x ∈ l, ∃ m, x = '|' :: m ++ ['|']) :
    ∃ m, joinSep sep l = '|' :: m ++ ['|'] := by
  induction l with
  | nil => exact absurd rfl hne
  | cons x t ih =>
    cases t with
    | nil =>
      obtain ⟨mx, hx⟩ := hall x (by simp)
      exact ⟨mx, by rw [joinSep, hx]⟩
    | cons y u =>
      obtain ⟨mx, hx⟩ := hall x (by simp)
      obtain ⟨mj, hj⟩ := ih (by simp) (fun z hz => hall z (by simp [hz]))
      refine ⟨mx ++ '|' :: (sep ++ '|' :: mj), ?_⟩
      rw [joinSep, hx, hj]
      simp

theorem renderRow_shape (cells : List Str) :
    ∃ m, renderRow cells = '|' :: m ++ ['|'] := by
  refine ⟨' ' :: (joinSep (str " | ") cells ++ [' ']), ?_⟩
  rw [renderRow]
  simp

theorem sepRow_shape : ∃ m, sepRow = '|' :: m ++ ['|'] :=
  ⟨str "---", by decide⟩

theorem pyStrip_renderRow (cells : List Str) :
    pyStrip (renderRow cells) = renderRow cells := by
  obtain ⟨m, hm⟩ := renderRow_shape cells
  rw [hm, pyStrip_pipe_wrap]

theorem newline_not_mem_renderRow (cells : List Str)
    (hc : ∀ x ∈ cells, ¬ '\n' ∈ x) : ¬ '\n' ∈ renderRow cells := by
  intro h
  rw [renderRow] at h
  rcases List.mem_cons.mp h with h1 | h1
  · exact absurd h1 (by decide)
  · rcases List.mem_cons.mp h1 with h2 | h2
    · exact absurd h2 (by decide)
    · rcases List.mem_append.mp h2 with h3 | h3
      · rcases mem_joinSep h3 with h4 | ⟨z, hz, hcz⟩
        · exact absurd h4 (by decide)
        · exact hc z hz hcz
      · exact absurd h3 (by decide)

theorem contains_pipe_renderRow (cells : List Str) :
    (renderRow cells).contains '|' = true := by
  rw [renderRow]
  simp [List.contains_cons]

theorem fence_not_prefix_renderRow (cells : List Str) :
    ((str "```").isPrefixOf (renderRow cells)) = false := by
  rw [show str "```" = '`' :: '`' :: '`' :: [] from rfl, renderRow]
  simp [List.isPrefixOf]

theorem collectTableLines_all (b : Bool) (lines : List Str)
    (h : ∀ l ∈ lines, l.contains '|' = true ∧ pyStrip l = l ∧
         ((str "```").isPrefixOf l) = false) :
    collectTableLines b lines = lines := by
  induction lines generalizing b with
  | nil => rfl
  | cons l rest ih =>
    obtain ⟨h1, h2, h3⟩ := h l (by simp)
    rw [collectTableLines, h2]
    rw [if_pos (by rw [h1, h3]; rfl)]
    rw [ih true (fun x hx => h x (by simp [hx]))]

theorem splitSep_pad (cells : List Str) (hne : cells ≠ [])
    (hp : ∀ x ∈ cells, ¬ '|' ∈ x) :
    splitSep '|' (' ' :: (joinSep (str " | ") cells ++ [' ', '|'])) =
      cells.map (fun c => ' ' :: (c ++ [' '])) ++ [[]] := by
  induction cells with
  | nil => exact absurd rfl hne
  | cons x t ih =>
    cases t with
    | nil =>
      rw [show ' ' :: (joinSep (str " | ") [x] ++ [' ', '|']) =
          (' ' :: (x ++ [' '])) ++ '|' :: [] from by rw [joinSep]; simp]
      rw [splitSep_append_cons _ (by
        intro hm
        rcases List.mem_cons.mp hm with h1 | h1
        · exact absurd h1 (by decide)
        · rcases List.mem_append.mp h1 with h2 | h2
          · exact hp x (by simp) h2
          · exact absurd h2 (by decide))]
      simp [splitSep]
    | cons y u =>
      rw [show ' ' :: (joinSep (str " | ") (x :: y :: u) ++ [' ', '|']) =
          (' ' :: (x ++ [' '])) ++ '|' :: (' ' :: (joinSep (str " | ") (y :: u) ++ [' ', '|'])) from by
        rw [joinSep, show str " | " = [' ', '|', ' '] from rfl]
        simp]
      rw [splitSep_append_cons _ (by
        intro hm
        rcases List.mem_cons.mp hm with h1 | h1
        · exact absurd h1 (by decide)
        · rcases List.mem_append.mp h1 with h2 | h2
          · exact hp x (by simp) h2
          · exact absurd h2 (by decide))]
      rw [ih (by simp) (fun z hz => hp z (by simp [hz]))]
      simp

theorem splitCells_renderRow (cells : List Str) (hne : cells ≠ [])
    (hclean : ∀ x ∈ cells, pyStrip x = x ∧ ¬ '|' ∈ x) :
    splitCells (renderRow cells) = cells := by
  unfold splitCells renderRow
  rw [show splitSep '|' ('|' :: ' ' :: (joinSep (str " | ") cells ++ [' ', '|'])) =
      [] :: splitSep '|' (' ' :: (joinSep (str " | ") cells ++ [' ', '|'])) from by
    rw [splitSep]; simp]
  rw [splitSep_pad cells hne (fun x hx => (hclean x hx).2)]
  rw [List.drop_one, List.tail_cons, List.dropLast_concat, List.map_map]
  rw [List.map_congr_left (fun x hx => by
    show pyStrip (' ' :: (x ++ [' '])) = x
    exact pyStrip_pad (hclean x hx).1)]
  exact List.map_id cells

theorem filterMap_render (N : Nat) (rows : List (List Str))
    (hr : ∀ r ∈ rows, r ≠ [] ∧ ∀ c ∈ r, pyStrip c = c ∧ ¬ '|' ∈ c) :
    (rows.map renderRow).filterMap
      (fun row => if (splitCells row).length == N then some (splitCells row) else none) =
    rows.filter (fun r => r.length == N) := by
  induction rows with
  | nil => rfl
  | cons r rs ih =>
    obtain ⟨hne, hcl⟩ := hr r (by simp)
    have hsc := splitCells_renderRow r hne hcl
    rw [List.map_cons, List.filterMap_cons, List.filter_cons]
    rw [hsc]
    by_cases hlen : (r.length == N) = true
    · rw [if_pos hlen, if_pos hlen]
      dsimp only
      rw [ih (fun x hx => hr x (by simp [hx]))]
    · rw [if_neg hlen, if_neg hlen]
      dsimp only
      rw [ih (fun x hx => hr x (by simp [hx]))]

/-- C1: a synthetically constructed markdown table with pipe-free,
newline-free, whitespace-trimmed cells parses back to exactly the data rows
whose cell count equals the header count, in source order, under the
headers; a mismatched row is dropped while every other well-formed row is
kept (and a table whose rows are all dropped parses to the empty table). -/
theorem parse_renderTable (headers : List Str) (rows : List (List Str))
    (hh : headers ≠ [])
    (hhc : ∀ x ∈ headers, pyStrip x = x ∧ ¬ '|' ∈ x ∧ ¬ '\n' ∈ x)
    (hr : ∀ r ∈ rows, r ≠ [] ∧ ∀ c ∈ r, pyStrip c = c ∧ ¬ '|' ∈ c ∧ ¬ '\n' ∈ c) :
    enhanced_parse_markdown_table (renderTable headers rows) =
      if rows.filter (fun r => r.length == headers.length) = [] then emptyTable
      else ⟨headers, rows.filter (fun r => r.length == headers.length)⟩ := by
  have hRT : renderTable headers rows =
      joinSep ['\n'] (renderRow headers :: sepRow :: rows.map renderRow) := rfl
  obtain ⟨mm, hm⟩ : ∃ m,
      joinSep ['\n'] (renderRow headers :: sepRow :: rows.map renderRow) =
        '|' :: m ++ ['|'] := by
    apply joinSep_pipe_shape _ _ (by simp)
    intro x hx
    rcases List.mem_cons.mp hx with rfl | hx1
    · exact renderRow_shape headers
    · rcases List.mem_cons.mp hx1 with rfl | hx2
      · exact sepRow_shape
      · rcases List.mem_map.mp hx2 with ⟨r, -, rfl⟩
        exact renderRow_shape r
  have hstrip : pyStrip (renderTable headers rows) = renderTable headers rows := by
    rw [hRT, hm]
    exact pyStrip_pipe_wrap mm
  have hie : (renderTable headers rows).isEmpty = false := by
    rw [hRT, hm, show ('|' :: mm ++ ['|']) = '|' :: (mm ++ ['|']) from by simp]
    rfl
  have hlines : splitSep '\n' (renderTable headers rows) =
      renderRow headers :: sepRow :: rows.map renderRow := by
    rw [hRT]
    apply splitSep_joinSep _ _ (by simp)
    intro x hx
    rcases List.mem_cons.mp hx with rfl | hx1
    · exact newline_not_mem_renderRow headers (fun c hc => (hhc c hc).2.2)
    · rcases List.mem_cons.mp hx1 with rfl | hx2
      · decide
      · rcases List.mem_map.mp hx2 with ⟨r, hrr, rfl⟩
        exact newline_not_mem_renderRow r (fun c hc => ((hr r hrr).2 c hc).2.2)
  have hcollect : collectTableLines false
      (renderRow headers :: sepRow :: rows.map renderRow) =
      renderRow headers :: sepRow :: rows.map renderRow := by
    apply collectTableLines_all
    intro l hl
    rcases List.mem_cons.mp hl with rfl | hl1
    · exact ⟨contains_pipe_renderRow headers, pyStrip_renderRow headers,
        fence_not_prefix_renderRow headers⟩
    · rcases List.mem_cons.mp hl1 with rfl | hl2
      · exact ⟨by decide, by decide, by decide⟩
      · rcases List.mem_map.mp hl2 with ⟨r, -, rfl⟩
        exact ⟨contains_pipe_renderRow r, pyStrip_renderRow r,
          fence_not_prefix_renderRow r⟩
  unfold enhanced_parse_markdown_table
  rw [hstrip, hie]
  rw [if_neg (by simp)]
  dsimp only
  rw [hlines, hcollect]
  dsimp only
  rw [splitCells_renderRow headers hh
    (fun x hx => ⟨(hhc x hx).1, (hhc x hx).2.1⟩)]
  cases rows with
  | nil => simp
  | cons r rs =>
    rw [show ((r :: rs).map renderRow).isEmpty = false from by rw [List.map_cons]; rfl]
    rw [if_neg (by simp)]
    rw [filterMap_render headers.length (r :: rs)
      (fun x hx => ⟨(hr x hx).1, fun c hc => ⟨((hr x hx).2 c hc).1, ((hr x hx).2 c hc).2.1⟩⟩)]
    cases hfil : (r :: rs).filter (fun row => row.length == headers.length) with
    | nil => simp [hfil]
    | cons q qs => simp [hfil]

/-- C1 witness: the round-trip theorem at a concrete 2-column table with one
well-formed row and one short row. -/
theorem parse_renderTable_w :
    enhanced_parse_markdown_table
        (renderTable [str "A", str "B"] [[str "1", str "2"], [str "x"]]) =
      if ([[str "1", str "2"], [str "x"]].filter
            (fun r => r.length == ([str "A", str "B"] : List Str).length)) = []
      then emptyTable
      else ⟨[str "A", str "B"],
            [[str "1", str "2"], [str "x"]].filter
              (fun r => r.length == ([str "A", str "B"] : List Str).length)⟩ :=
  parse_renderTable [str "A", str "B"] [[str "1", str "2"], [str "x"]]
    (by decide) (by decide) (by decide)

/-! ## Persistence Adapter (`api_manufacturer_service.py`) -/

/-- One row of the `API_manufacturers` table.  SQL `NULL` in text columns is
modelled as the empty string (the code only ever stores strings, and the
query treats `NULL` and `''` alike). -/
structure ManufacturerRecord where
  api_name : Str
  manufacturer : Str
  country : Str
  usdmf : Str
  cep : Str
  source_file : Str
  imported_at : Str
  source_url : Str
  source_name : Str
deriving DecidableEq

abbrev ManufacturerDb := List ManufacturerRecord

/-- The `UNIQUE(api_name, manufacturer, country)` key. -/
def recordKey (r : ManufacturerRecord) : Str × Str × Str :=
  (r.api_name, r.manufacturer, r.country)

/-- SQL `LIKE`, structurally recursive so it evaluates by reduction:
`%` matches any sequence, `_` any single character. -/
def likeStarAux (f : Str → Bool) : Str → Bool
  | [] => f []
  | d :: s' => f (d :: s') || likeStarAux f s'

def likeMatch : Str → Str → Bool
  | [], s => s.isEmpty
  | c :: p, s =>
    if c = '%' then likeStarAux (likeMatch p) s
    else
      match s with
      | [] => false
      | d :: s' => (c == '_' || c == d) && likeMatch p s'

/-- The hard-coded timestamp excluded by `query`
(api_manufacturer_service.py:370). -/
def badImportTimestamp : Str := str "2025-11-18T08:11:35.863619"

/-- `%filter%`. -/
def wrapPercent (s : Str) : Str := '%' :: s ++ ['%']

/-- Lexicographic comparison on code points, for `ORDER BY`. -/
def strLe : Str → Str → Bool
  | [], _ => true
  | _ :: _, [] => false
  | a :: s, b :: t => if a = b then strLe s t else decide (a.toNat < b.toNat)

def insertByManufacturer (r : ManufacturerRecord) :
    List ManufacturerRecord → List ManufacturerRecord
  | [] => [r]
  | x :: xs =>
    if strLe (pyLower x.manufacturer) (pyLower r.manufacturer) then
      x :: insertByManufacturer r xs
    else r :: x :: xs

/-- `ORDER BY manufacturer COLLATE NOCASE` / `ORDER BY LOWER(manufacturer)`:
stable insertion sort on the lowercased manufacturer. -/
def sortByManufacturer (l : List ManufacturerRecord) : List ManufacturerRecord :=
  l.foldl (fun acc r => insertByManufacturer r acc) []

/-- The row filter of `query` (api_manufacturer_service.py:377-386):
`LOWER(api_name) LIKE LOWER(:api_pattern) AND LOWER(country) LIKE
LOWER(:country_pattern) AND (imported_at IS NULL OR imported_at = '' OR
imported_at != :bad_ts)`. -/
def queryRowFilter (api_filter country_filter : Str) (r : ManufacturerRecord) : Bool :=
  likeMatch (pyLower (wrapPercent api_filter)) (pyLower r.api_name) &&
  (likeMatch (pyLower (wrapPercent country_filter)) (pyLower r.country) &&
   (r.imported_at == ([] : Str) || r.imported_at != badImportTimestamp))

/-- `ApiManufacturerService.query` (api_manufacturer_service.py:359-401). -/
def query (db : ManufacturerDb) (api_name country : Str) : List ManufacturerRecord :=
  let api_filter := pyStrip api_name
  let country_filter := pyStrip country
  if api_filter.isEmpty || country_filter.isEmpty then []
  else sortByManufacturer (db.filter (queryRowFilter api_filter country_filter))

/-- `ApiManufacturerService.get_skip_list` (api_manufacturer_service.py:403-405);
the Python set is modelled as the list of its elements in query order. -/
def get_skip_list (db : ManufacturerDb) (api_name country : Str) : List Str :=
  (query db api_name country).map (fun rec => pyLower (pyStrip rec.manufacturer))

/-- The caller-supplied part of one record handed to `insert_records`. -/
structure RecordInput where
  api_name : Str
  manufacturer : Str
  country : Str
  usdmf : Str
  cep : Str
  source_url : Str
  source_name : Str
deriving DecidableEq

/-- The `.str.strip()` normalisation applied to every column. -/
def stripInput (x : RecordInput) : RecordInput :=
  ⟨pyStrip x.api_name, pyStrip x.manufacturer, pyStrip x.country,
   pyStrip x.usdmf, pyStrip x.cep, pyStrip x.source_url, pyStrip x.source_name⟩

/-- The payload built in `_bulk_insert` (lines 307-320): `source_file` from
the argument and `imported_at` from the clock, passed in here explicitly. -/
def toRecord (source_file imported_at : Str) (x : RecordInput) : ManufacturerRecord :=
  ⟨x.api_name, x.manufacturer, x.country, x.usdmf, x.cep,
   source_file, imported_at, x.source_url, x.source_name⟩

def hasKey (db : ManufacturerDb) (k : Str × Str × Str) : Bool :=
  db.any (fun r => recordKey r == k)

/-- One `INSERT OR IGNORE` / `ON CONFLICT DO NOTHING` execution: rowcount 1
when the key is new, 0 when an existing row has the same key (the existing
row is left untouched). -/
def insertOne (db : ManufacturerDb) (p : ManufacturerRecord) : ManufacturerDb × Nat :=
  if hasKey db (recordKey p) then (db, 0) else (db ++ [p], 1)

/-- `ApiManufacturerService._bulk_insert` (lines 284-355): execute the insert
per payload, accumulate the rowcount and collect the newly inserted rows. -/
def _bulk_insert (db : ManufacturerDb) (payloads : List ManufacturerRecord) :
    ManufacturerDb × Nat × List ManufacturerRecord :=
  payloads.foldl
    (fun acc p =>
      let db2 := insertOne acc.1 p
      (db2.1, acc.2.1 + db2.2, if db2.2 = 0 then acc.2.2 else acc.2.2 ++ [p]))
    (db, 0, [])

/-- `ApiManufacturerService.insert_records` (lines 407-429): strip every
column, drop rows with empty api or manufacturer, then bulk-insert. -/
def insert_records (db : ManufacturerDb) (records : List RecordInput)
    (source_label now : Str) : ManufacturerDb × Nat × List ManufacturerRecord :=
  let cleaned := (records.map stripInput).filter
    (fun x => !x.api_name.isEmpty && !x.manufacturer.isEmpty)
  _bulk_insert db (cleaned.map (toRecord source_label now))

/-- Rows in `db` carrying key `k`. -/
def countKey (db : ManufacturerDb) (k : Str × Str × Str) : Nat :=
  (db.filter (fun r => recordKey r == k)).length

example :
    (insert_records [] [⟨str "aspirin", str "Acme", str "India", str "", str "", str "", str ""⟩]
      (str "discovery") (str "t1")).2.1 = 1 := by decide

example :
    (let d1 := insert_records [] [⟨str "aspirin", str "Acme", str "India", str "", str "", str "", str ""⟩]
      (str "discovery") (str "t1")
     (insert_records d1.1 [⟨str "aspirin", str "Acme", str "India", str "", str "", str "", str ""⟩]
      (str "discovery") (str "t2")).2.1) = 0 := by decide

example :
    query [⟨str "Aspirin USP", str "Acme", str "India, South Asia", str "", str "",
            str "", str "", str "", str ""⟩] (str "aspirin") (str "india") =
    [⟨str "Aspirin USP", str "Acme", str "India, South Asia", str "", str "",
      str "", str "", str "", str ""⟩] := by decide

example :
    query [⟨str "Aspirin USP", str "Acme", str "India, South Asia", str "", str "",
            str "", badImportTimestamp, str "", str ""⟩] (str "aspirin") (str "india") = [] := by
  decide

theorem isEmpty_eq_false_of_ne {s : Str} (h : s ≠ []) : s.isEmpty = false := by
  cases s with
  | nil => exact absurd rfl h
  | cons a t => rfl

theorem countKey_pos_of_hasKey {db : ManufacturerDb} {k : Str × Str × Str}
    (h : hasKey db k = true) : 1 ≤ countKey db k := by
  rcases List.any_eq_true.mp h with ⟨r, hr, hbeq⟩
  have hmem : r ∈ db.filter (fun q => recordKey q == k) :=
    List.mem_filter.mpr ⟨hr, hbeq⟩
  exact List.length_pos.mpr (List.ne_nil_of_mem hmem)

theorem countKey_zero_of_not_hasKey {db : ManufacturerDb} {k : Str × Str × Str}
    (h : hasKey db k = false) : countKey db k = 0 := by
  unfold countKey
  rw [List.length_eq_zero]
  rw [List.filter_eq_nil_iff]
  intro r hr
  have := List.any_eq_false.mp h r hr
  simp [this]

theorem countKey_append_key (db : ManufacturerDb) (p : ManufacturerRecord) :
    countKey (db ++ [p]) (recordKey p) = countKey db (recordKey p) + 1 := by
  unfold countKey
  rw [List.filter_append, List.length_append]
  rw [show List.filter (fun q => recordKey q == recordKey p) [p] = [p] from by simp]
  rfl

/-- C3: inserting the same (api_name, manufacturer, country) triple twice
(whatever the source labels and timestamps of the two calls) leaves exactly
one stored record with that key; the second call reports 0 inserted rows,
returns no inserted-row entries, and leaves the store byte-for-byte
unchanged. -/
theorem insert_twice_noop (db : ManufacturerDb) (x : RecordInput) (l1 t1 l2 t2 : Str)
    (hapi : pyStrip x.api_name ≠ []) (hman : pyStrip x.manufacturer ≠ [])
    (hkey : countKey db (pyStrip x.api_name, pyStrip x.manufacturer, pyStrip x.country) ≤ 1) :
    (insert_records (insert_records db [x] l1 t1).1 [x] l2 t2).2.1 = 0 ∧
    (insert_records (insert_records db [x] l1 t1).1 [x] l2 t2).2.2 = [] ∧
    (insert_records (insert_records db [x] l1 t1).1 [x] l2 t2).1 =
      (insert_records db [x] l1 t1).1 ∧
    countKey (insert_records (insert_records db [x] l1 t1).1 [x] l2 t2).1
      (pyStrip x.api_name, pyStrip x.manufacturer, pyStrip x.country) = 1 := by
  set k : Str × Str × Str :=
    (pyStrip x.api_name, pyStrip x.manufacturer, pyStrip x.country) with hkdef
  have hstep : ∀ (l t : Str) (d : ManufacturerDb),
      insert_records d [x] l t =
        if hasKey d k then (d, 0, [])
        else (d ++ [toRecord l t (stripInput x)], 1, [toRecord l t (stripInput x)]) := by
    intro l t d
    have hrk : recordKey (toRecord l t (stripInput x)) = k := rfl
    have hae : (stripInput x).api_name.isEmpty = false := isEmpty_eq_false_of_ne hapi
    have hme : (stripInput x).manufacturer.isEmpty = false := isEmpty_eq_false_of_ne hman
    by_cases hk : hasKey d k = true
    · simp [insert_records, _bulk_insert, insertOne, List.filter_cons, hae, hme, hrk, hk]
    · simp only [Bool.not_eq_true] at hk
      simp [insert_records, _bulk_insert, insertOne, List.filter_cons, hae, hme, hrk, hk]
  by_cases hk : hasKey db k = true
  · rw [hstep l1 t1 db, if_pos hk]
    dsimp only
    rw [hstep l2 t2 db, if_pos hk]
    have h1 := countKey_pos_of_hasKey hk
    have h2 : countKey db k = 1 := by omega
    exact ⟨rfl, rfl, rfl, h2⟩
  · simp only [Bool.not_eq_true] at hk
    rw [hstep l1 t1 db, if_neg (by simp [hk])]
    dsimp only
    have hk2 : hasKey (db ++ [toRecord l1 t1 (stripInput x)]) k = true := by
      unfold hasKey
      rw [List.any_append]
      have hrk1 : recordKey (toRecord l1 t1 (stripInput x)) = k := rfl
      simp [hrk1]
    rw [hstep l2 t2 (db ++ [toRecord l1 t1 (stripInput x)]), if_pos hk2]
    refine ⟨rfl, rfl, rfl, ?_⟩
    have hcnt := countKey_append_key db (toRecord l1 t1 (stripInput x))
    rw [show recordKey (toRecord l1 t1 (stripInput x)) = k from rfl] at hcnt
    rw [hcnt, countKey_zero_of_not_hasKey hk]

/-- C3 witness: the idempotence theorem at the concrete triple
("aspirin", "Acme", "India") on an empty store. -/
theorem insert_twice_noop_w :
    (insert_records (insert_records []
        [⟨str "aspirin", str "Acme", str "India", str "", str "", str "", str ""⟩]
        (str "discovery") (str "t1")).1
        [⟨str "aspirin", str "Acme", str "India", str "", str "", str "", str ""⟩]
        (str "discovery") (str "t2")).2.1 = 0 ∧
    (insert_records (insert_records []
        [⟨str "aspirin", str "Acme", str "India", str "", str "", str "", str ""⟩]
        (str "discovery") (str "t1")).1
        [⟨str "aspirin", str "Acme", str "India", str "", str "", str "", str ""⟩]
        (str "discovery") (str "t2")).2.2 = [] ∧
    (insert_records (insert_records []
        [⟨str "aspirin", str "Acme", str "India", str "", str "", str "", str ""⟩]
        (str "discovery") (str "t1")).1
        [⟨str "aspirin", str "Acme", str "India", str "", str "", str "", str ""⟩]
        (str "discovery") (str "t2")).1 =
      (insert_records []
        [⟨str "aspirin", str "Acme", str "India", str "", str "", str "", str ""⟩]
        (str "discovery") (str "t1")).1 ∧
    countKey (insert_records (insert_records []
        [⟨str "aspirin", str "Acme", str "India", str "", str "", str "", str ""⟩]
        (str "discovery") (str "t1")).1
        [⟨str "aspirin", str "Acme", str "India", str "", str "", str "", str ""⟩]
        (str "discovery") (str "t2")).1
      (pyStrip (str "aspirin"), pyStrip (str "Acme"), pyStrip (str "India")) = 1 :=
  insert_twice_noop []
    ⟨str "aspirin", str "Acme", str "India", str "", str "", str "", str ""⟩
    (str "discovery") (str "t1") (str "discovery") (str "t2")
    (by decide) (by decide) (by decide)

/-! ## Query semantics: LIKE %f% on wildcard-free fragments is substring
containment -/

/-- `s` contains none of the LIKE wildcards. -/
def noWildcard (s : Str) : Prop := ∀ c ∈ s, c ≠ '%' ∧ c ≠ '_'

theorem likeMatch_cons (c : Char) (p s : Str) :
    likeMatch (c :: p) s =
      if c = '%' then likeStarAux (likeMatch p) s
      else
        match s with
        | [] => false
        | d :: s' => (c == '_' || c == d) && likeMatch p s' := rfl

theorem likeMatch_percent_nil (t : Str) : likeMatch ['%'] t = true := by
  induction t with
  | nil => rfl
  | cons d t' ih =>
    show (likeMatch [] (d :: t') || likeStarAux (likeMatch []) t') = true
    have h2 : likeStarAux (likeMatch []) t' = true := ih
    rw [h2]
    simp

theorem likeMatch_append_percent (f : Str) (hf : noWildcard f) :
    ∀ t : Str, likeMatch (f ++ ['%']) t = f.isPrefixOf t := by
  induction f with
  | nil =>
    intro t
    show likeMatch ['%'] t = List.isPrefixOf [] t
    rw [likeMatch_percent_nil]
    cases t <;> rfl
  | cons c f' ih =>
    intro t
    obtain ⟨hc1, hc2⟩ := hf c (by simp)
    show likeMatch (c :: (f' ++ ['%'])) t = List.isPrefixOf (c :: f') t
    rw [likeMatch_cons, if_neg hc1]
    cases t with
    | nil => rfl
    | cons d t' =>
      show ((c == '_' || c == d) && likeMatch (f' ++ ['%']) t') =
        List.isPrefixOf (c :: f') (d :: t')
      rw [ih (fun a ha => hf a (by simp [ha])) t']
      rw [show List.isPrefixOf (c :: f') (d :: t') =
        ((c == d) && List.isPrefixOf f' t') from rfl]
      rw [show (c == '_') = false from by
        simp only [beq_eq_false_iff_ne, ne_eq]
        exact hc2]
      rw [Bool.false_or]

theorem likeStarAux_eq_isSubstr (f : Str) (hf : noWildcard f) (t : Str) :
    likeStarAux (likeMatch (f ++ ['%'])) t = isSubstr f t := by
  induction t with
  | nil =>
    show likeMatch (f ++ ['%']) [] = isSubstr f []
    rw [likeMatch_append_percent f hf]
    cases f <;> rfl
  | cons d t' ih =>
    show (likeMatch (f ++ ['%']) (d :: t') || likeStarAux (likeMatch (f ++ ['%'])) t') =
      isSubstr f (d :: t')
    rw [likeMatch_append_percent f hf, ih]
    rfl

theorem likeMatch_wrap (f : Str) (hf : noWildcard f) (t : Str) :
    likeMatch ('%' :: (f ++ ['%'])) t = isSubstr f t := by
  rw [likeMatch_cons, if_pos rfl]
  exact likeStarAux_eq_isSubstr f hf t

theorem pyLower_wrap (f : Str) : pyLower (wrapPercent f) = '%' :: (pyLower f ++ ['%']) := by
  show List.map pyLowerChar (('%' :: f) ++ ['%']) = _
  rw [List.map_append, List.map_cons]
  rw [show pyLowerChar '%' = '%' from rfl]
  rw [show List.map pyLowerChar ['%'] = ['%'] from rfl]
  simp [pyLower]

theorem pyLowerChar_toNat_of_upper {a : Char} (h : 65 ≤ a.toNat ∧ a.toNat ≤ 90) :
    (pyLowerChar a).toNat = a.toNat + 32 := by
  unfold pyLowerChar
  rw [dif_pos h]
  show (a.val + 32).toNat = a.toNat + 32
  rw [UInt32.toNat_add]
  have hv : a.toNat = a.val.toNat := rfl
  simp only [UInt32.toNat_ofNat, UInt32.size]
  omega

theorem noWildcard_pyLower {f : Str} (hf : noWildcard f) : noWildcard (pyLower f) := by
  intro c hc
  rcases List.mem_map.mp hc with ⟨a, ha, rfl⟩
  obtain ⟨h1, h2⟩ := hf a ha
  by_cases hup : 65 ≤ a.toNat ∧ a.toNat ≤ 90
  · have ht := pyLowerChar_toNat_of_upper hup
    have h37 : ('%').toNat = 37 := rfl
    have h95 : ('_').toNat = 95 := rfl
    constructor
    · intro hcontra
      rw [hcontra] at ht
      omega
    · intro hcontra
      rw [hcontra] at ht
      omega
  · rw [show pyLowerChar a = a from by unfold pyLowerChar; rw [dif_neg hup]]
    exact ⟨h1, h2⟩

theorem mem_insertByManufacturer (a r : ManufacturerRecord) :
    ∀ l : List ManufacturerRecord,
      (a ∈ insertByManufacturer r l ↔ a = r ∨ a ∈ l) := by
  intro l
  induction l with
  | nil => simp [insertByManufacturer]
  | cons x xs ih =>
    unfold insertByManufacturer
    split
    · rw [List.mem_cons, ih, List.mem_cons]
      tauto
    · simp only [List.mem_cons]

theorem mem_sortByManufacturer (a : ManufacturerRecord) (l : List ManufacturerRecord) :
    a ∈ sortByManufacturer l ↔ a ∈ l := by
  have hgen : ∀ (t acc : List ManufacturerRecord),
      (a ∈ t.foldl (fun acc r => insertByManufacturer r acc) acc ↔ a ∈ acc ∨ a ∈ t) := by
    intro t
    induction t with
    | nil => intro acc; simp
    | cons r ts ih =>
      intro acc
      rw [List.foldl_cons, ih, mem_insertByManufacturer, List.mem_cons]
      tauto
  rw [sortByManufacturer, hgen]
  simp

/-! ## Claim C7 -/

/-- C7, counterexample: a stored record whose api_name and country both
contain the query fragments (case-insensitively) is nevertheless NOT
returned when its imported_at equals the hard-coded excluded timestamp, so
`query` does not return *all* stored records matching the substring
filters. -/
theorem query_missing_match_cex :
    isSubstr (pyLower (str "aspirin")) (pyLower (str "Aspirin USP")) = true ∧
    isSubstr (pyLower (str "india")) (pyLower (str "India, South Asia")) = true ∧
    query [⟨str "Aspirin USP", str "Acme", str "India, South Asia", str "", str "",
            str "", badImportTimestamp, str "", str ""⟩]
      (str "aspirin") (str "india") = [] := by
  decide

/-- C7 (amended): for non-empty wildcard-free fragments, `query` returns
exactly the stored records whose lowercased api_name and country contain the
lowercased fragments as substrings AND whose imported_at is empty/NULL or
differs from the hard-coded bad-import timestamp. -/
theorem query_membership (db : ManufacturerDb) (api country : Str) (r : ManufacturerRecord)
    (ha : pyStrip api ≠ []) (hc : pyStrip country ≠ [])
    (hwa : noWildcard (pyStrip api)) (hwc : noWildcard (pyStrip country)) :
    r ∈ query db api country ↔
      (r ∈ db ∧
       isSubstr (pyLower (pyStrip api)) (pyLower r.api_name) = true ∧
       isSubstr (pyLower (pyStrip country)) (pyLower r.country) = true ∧
       (r.imported_at = [] ∨ r.imported_at ≠ badImportTimestamp)) := by
  simp only [query]
  rw [if_neg (by simp [isEmpty_eq_false_of_ne ha, isEmpty_eq_false_of_ne hc])]
  rw [mem_sortByManufacturer, List.mem_filter]
  unfold queryRowFilter
  rw [pyLower_wrap, pyLower_wrap]
  rw [likeMatch_wrap _ (noWildcard_pyLower hwa), likeMatch_wrap _ (noWildcard_pyLower hwc)]
  simp only [Bool.and_eq_true, Bool.or_eq_true, beq_iff_eq, bne_iff_ne, ne_eq]

/-- C7 witness: the amended characterisation applied to the Aspirin USP /
"India, South Asia" record (imported_at empty), queried with "aspirin" /
"india". -/
theorem query_membership_w :
    (⟨str "Aspirin USP", str "Acme", str "India, South Asia", str "", str "",
      str "", str "", str "", str ""⟩ : ManufacturerRecord) ∈
      query [⟨str "Aspirin USP", str "Acme", str "India, South Asia", str "", str "",
        str "", str "", str "", str ""⟩] (str "aspirin") (str "india") ↔
    ((⟨str "Aspirin USP", str "Acme", str "India, South Asia", str "", str "",
      str "", str "", str "", str ""⟩ : ManufacturerRecord) ∈
        [(⟨str "Aspirin USP", str "Acme", str "India, South Asia", str "", str "",
          str "", str "", str "", str ""⟩ : ManufacturerRecord)] ∧
     isSubstr (pyLower (pyStrip (str "aspirin")))
       (pyLower (⟨str "Aspirin USP", str "Acme", str "India, South Asia", str "", str "",
         str "", str "", str "", str ""⟩ : ManufacturerRecord).api_name) = true ∧
     isSubstr (pyLower (pyStrip (str "india")))
       (pyLower (⟨str "Aspirin USP", str "Acme", str "India, South Asia", str "", str "",
         str "", str "", str "", str ""⟩ : ManufacturerRecord).country) = true ∧
     ((⟨str "Aspirin USP", str "Acme", str "India, South Asia", str "", str "",
       str "", str "", str "", str ""⟩ : ManufacturerRecord).imported_at = [] ∨
      (⟨str "Aspirin USP", str "Acme", str "India, South Asia", str "", str "",
       str "", str "", str "", str ""⟩ : ManufacturerRecord).imported_at ≠
        badImportTimestamp)) :=
  query_membership _ (str "aspirin") (str "india") _
    (by decide) (by decide) (by unfold noWildcard; decide) (by unfold noWildcard; decide)

/-! ## Claim C8 -/

/-- C8: a stored record whose imported_at equals the hard-coded timestamp
"2025-11-18T08:11:35.863619" is never returned by `query` (whatever the
fragments and the rest of the store), removing all its copies from the store
does not change any query result, and consequently it never contributes to
the `get_skip_list` skip-set. -/
theorem query_excludes_bad_timestamp (db : ManufacturerDb) (api country : Str)
    (r : ManufacturerRecord) (hts : r.imported_at = badImportTimestamp) :
    r ∉ query db api country ∧
    query (db.filter (fun x => !(x == r))) api country = query db api country ∧
    get_skip_list (db.filter (fun x => !(x == r))) api country =
      get_skip_list db api country := by
  have hfilt : ∀ apF cF, queryRowFilter apF cF r = false := by
    intro apF cF
    unfold queryRowFilter
    rw [hts]
    rw [show (badImportTimestamp == ([] : Str)) = false from by decide]
    rw [show (badImportTimestamp != badImportTimestamp) = false from by simp]
    simp
  have hcomm : List.filter (queryRowFilter (pyStrip api) (pyStrip country))
      (db.filter (fun x => !(x == r))) =
      List.filter (queryRowFilter (pyStrip api) (pyStrip country)) db := by
    induction db with
    | nil => rfl
    | cons y t ih =>
      by_cases hy : (y == r) = true
      · have hyr : y = r := eq_of_beq hy
        rw [List.filter_cons, List.filter_cons]
        rw [show (!(y == r)) = false from by rw [hy]; rfl]
        rw [show queryRowFilter (pyStrip api) (pyStrip country) y = false from by
          rw [hyr]; exact hfilt _ _]
        simpa using ih
      · simp only [Bool.not_eq_true] at hy
        rw [List.filter_cons,
          show (!(y == r)) = true from by rw [hy]; rfl, if_pos rfl]
        rw [List.filter_cons, List.filter_cons, ih]
  have hqeq : query (db.filter (fun x => !(x == r))) api country = query db api country := by
    by_cases he : ((pyStrip api).isEmpty || (pyStrip country).isEmpty) = true
    · simp only [query]
      rw [if_pos he, if_pos he]
    · simp only [query]
      rw [if_neg he, if_neg he, hcomm]
  refine ⟨?_, hqeq, by unfold get_skip_list; rw [hqeq]⟩
  intro hmem
  simp only [query] at hmem
  by_cases he : ((pyStrip api).isEmpty || (pyStrip country).isEmpty) = true
  · rw [if_pos he] at hmem
    exact absurd hmem (List.not_mem_nil r)
  · rw [if_neg he] at hmem
    rw [mem_sortByManufacturer] at hmem
    have h2 := (List.mem_filter.mp hmem).2
    rw [hfilt] at h2
    exact absurd h2 (by simp)

/-- C8 witness: the exclusion theorem applied to a concrete bad-timestamp
record. -/
theorem query_excludes_bad_timestamp_w :
    (⟨str "Aspirin USP", str "Acme", str "India, South Asia", str "", str "",
      str "", badImportTimestamp, str "", str ""⟩ : ManufacturerRecord) ∉
      query [⟨str "Aspirin USP", str "Acme", str "India, South Asia", str "", str "",
        str "", badImportTimestamp, str "", str ""⟩] (str "aspirin") (str "india") ∧
    query ([(⟨str "Aspirin USP", str "Acme", str "India, South Asia", str "", str "",
        str "", badImportTimestamp, str "", str ""⟩ : ManufacturerRecord)].filter
        (fun x => !(x == ⟨str "Aspirin USP", str "Acme", str "India, South Asia", str "",
          str "", str "", badImportTimestamp, str "", str ""⟩)))
      (str "aspirin") (str "india") =
      query [⟨str "Aspirin USP", str "Acme", str "India, South Asia", str "", str "",
        str "", badImportTimestamp, str "", str ""⟩] (str "aspirin") (str "india") ∧
    get_skip_list ([(⟨str "Aspirin USP", str "Acme", str "India, South Asia", str "",
        str "", str "", badImportTimestamp, str "", str ""⟩ : ManufacturerRecord)].filter
        (fun x => !(x == ⟨str "Aspirin USP", str "Acme", str "India, South Asia", str "",
          str "", str "", badImportTimestamp, str "", str ""⟩)))
      (str "aspirin") (str "india") =
      get_skip_list [⟨str "Aspirin USP", str "Acme", str "India, South Asia", str "",
        str "", str "", badImportTimestamp, str "", str ""⟩] (str "aspirin") (str "india") :=
  query_excludes_bad_timestamp
    [⟨str "Aspirin USP", str "Acme", str "India, South Asia", str "", str "",
      str "", badImportTimestamp, str "", str ""⟩]
    (str "aspirin") (str "india")
    ⟨str "Aspirin USP", str "Acme", str "India, South Asia", str "", str "",
      str "", badImportTimestamp, str "", str ""⟩ rfl

/-! ## Discovery entry point (`api_manufacturer_discovery.py`, `discover`) -/

/-- Observable side effects of one `discover` run: a store query, one Google
search per attempted batch, and a store insertion. -/
inductive DiscoveryEffect where
  | queryEff : DiscoveryEffect
  | searchEff : DiscoveryEffect
  | insertEff : DiscoveryEffect
deriving DecidableEq

/-- The dictionary returned by `discover`; the early-error return carries only
`success` and `error`, modelled with empty/zero defaults for the remaining
fields. -/
structure DiscoverResult where
  success : Bool
  error : Option Str
  existing_records : List ManufacturerRecord
  new_records : List ManufacturerRecord
  all_records : List ManufacturerRecord
  inserted_count : Nat
deriving DecidableEq

def requiredMsg : Str := str "API name and country are required for discovery."

/-- Stable insertion sort on strings (Python `sorted`). -/
def insertStr (x : Str) : List Str → List Str
  | [] => [x]
  | y :: ys => if strLe y x then y :: insertStr x ys else x :: y :: ys

def sortStr (l : List Str) : List Str :=
  l.foldl (fun acc x => insertStr x acc) []

/-- Order-preserving deduplication (the Python set comprehension,
modelled as first-occurrence order before sorting). -/
def dedup (l : List Str) : List Str :=
  l.foldl (fun acc x => if acc.contains x then acc else acc ++ [x]) []

/-- `skip_list[i : i + 30]` batching. -/
def chunksAux : Nat → List Str → List (List Str)
  | _, [] => []
  | 0, l => [l]
  | fuel + 1, l => l.take 30 :: chunksAux fuel (l.drop 30)

def chunksOf30 (l : List Str) : List (List Str) := chunksAux l.length l

/-- The `for batch in batches: ... if discovered_records: break` loop: returns
the first non-empty search result together with the number of batches tried. -/
def discoverLoop (g : List Str → List RecordInput) :
    List (List Str) → List RecordInput × Nat
  | [] => ([], 0)
  | b :: rest =>
    let d := g b
    if d.isEmpty then
      let r := discoverLoop g rest
      (r.1, r.2 + 1)
    else (d, 1)

/-- `ApiManufacturerDiscoveryService.discover`
(api_manufacturer_discovery.py:78-124).  The Groq/Google collaborator
`_discover_with_google` is abstracted as the oracle `google` (already
specialised to the stripped api/country), and the clock as `now`.  The
returned effect list records, in order, the store/search operations the run
performed. -/
def discover (db : ManufacturerDb) (google : List Str → List RecordInput) (now : Str)
    (api_name country : Str) : DiscoverResult × ManufacturerDb × List DiscoveryEffect :=
  let api := pyStrip api_name
  let c := pyStrip country
  if api.isEmpty || c.isEmpty then
    (⟨false, some requiredMsg, [], [], [], 0⟩, db, [])
  else
    let existing := query db api c
    let skip_list := sortStr (dedup
      ((existing.filter (fun rec => !rec.manufacturer.isEmpty)).map
        (fun rec => pyLower (pyStrip rec.manufacturer))))
    let batches := if (chunksOf30 skip_list).isEmpty then [[]] else chunksOf30 skip_list
    let loopRes := discoverLoop google batches
    let discovered := loopRes.1
    let ins :=
      if discovered.isEmpty then (db, 0, ([] : List ManufacturerRecord))
      else insert_records db discovered (str "groq_discovery") now
    let refreshed := query ins.1 api c
    (⟨true, none, existing, ins.2.2, refreshed, ins.2.1⟩, ins.1,
     DiscoveryEffect.queryEff ::
       (List.replicate loopRes.2 DiscoveryEffect.searchEff ++
        (if discovered.isEmpty then [] else [DiscoveryEffect.insertEff]) ++
        [DiscoveryEffect.queryEff]))

/-- C10: when the API name or the country is empty (or whitespace-only)
after trimming, `discover` rejects the request at the boundary: it returns
success = false with the error message, leaves the store untouched, and
performs no query, no search and no insertion (empty effect list). -/
theorem discover_rejects_empty (db : ManufacturerDb)
    (google : List Str → List RecordInput) (now api_name country : Str)
    (h : pyStrip api_name = [] ∨ pyStrip country = []) :
    discover db google now api_name country =
      (⟨false, some requiredMsg, [], [], [], 0⟩, db, []) := by
  have hcond : ((pyStrip api_name).isEmpty || (pyStrip country).isEmpty) = true := by
    rcases h with h | h <;> simp [h]
  simp only [discover]
  rw [if_pos hcond]

/-- C10 witness: the boundary theorem applied to a whitespace-only API name
with an otherwise valid country, a store with one record and a search oracle
that would return data. -/
theorem discover_rejects_empty_w :
    discover [⟨str "Aspirin USP", str "Acme", str "India", str "", str "",
        str "", str "", str "", str ""⟩]
      (fun _ => [⟨str "aspirin", str "NewCo", str "India", str "", str "", str "", str ""⟩])
      (str "t0") (str "   ") (str "India") =
      (⟨false, some requiredMsg, [], [], [], 0⟩,
       [⟨str "Aspirin USP", str "Acme", str "India", str "", str "",
         str "", str "", str "", str ""⟩], []) :=
  discover_rejects_empty _ _ _ _ _ (Or.inl (by decide))

/-! ## Result Validator (`synthesis_route_finder/synthesis_engine/
api_buyer_finder.py`, `validate_and_filter_results`, lines 408-503) -/

/-- Python `row.get(col, dflt)` on a pandas row whose index is the table's
header list. -/
def rowGet (headers row : List Str) (col dflt : Str) : Str :=
  match headers.findIdx? (fun h => h == col) with
  | none => dflt
  | some i => (row.get? i).getD dflt

/-- Python `s.rstrip('%')`. -/
def rstripPercent (s : Str) : Str :=
  (s.reverse.dropWhile (fun c => c == '%')).reverse

/-- Python `s.isdigit()` (ASCII digits, which is all the parsed confidence
cells can contain for `int` to succeed). -/
def isDigits (s : Str) : Bool :=
  !s.isEmpty && s.all (fun c => decide (48 ≤ c.toNat) && decide (c.toNat ≤ 57))

/-- Decimal `int(s)` for a digit string. -/
def strToNat (s : Str) : Nat :=
  s.foldl (fun n c => 10 * n + (c.toNat - 48)) 0

/-- Lines 432-434: `str(row.get('Confidence (%)', '0')).strip().rstrip('%')`,
then `int(...)` when the remainder is all digits, else 0. -/
def parseConfidence (cell : Str) : Nat :=
  let confidence_str := rstripPercent (pyStrip cell)
  if isDigits confidence_str then strToNat confidence_str else 0

/-- Lines 448-452. -/
def api_only_keywords : List Str :=
  [str "api manufacturer", str "api supplier", str "bulk drug", str "raw material",
   str "intermediate", str "active ingredient", str "pharmaceutical ingredient",
   str "chemical supplier", str "bulk supplier", str "api only", str "raw api",
   str "bulk api", str "chemical manufacturer", str "ingredient supplier"]

/-- Lines 460-463. -/
def import_keywords : List Str :=
  [str "importer", str "distributor", str "trading", str "import", str "distribution",
   str "wholesale", str "trader", str "importing", str "export", str "exporter"]

/-- Line 416. -/
def requiredColumnsBuyer : List Str :=
  [str "Company", str "Form", str "Confidence (%)", str "URL"]

/-- The per-row checks of `validate_and_filter_results` (lines 425-495),
in source order: non-empty company, confidence ≥ 50, no API-only keyword,
no importer/distributor keyword, API mentioned in a product field, URL
scheme check, and the manufacturing-location import check. -/
def rowValidBuyer (headers : List Str) (api : Str) (row : List Str) : Bool :=
  let company_name := pyStrip (rowGet headers row (str "Company") [])
  if company_name.isEmpty then false
  else
    let confidence := parseConfidence (rowGet headers row (str "Confidence (%)") (str "0"))
    if confidence < 50 then false
    else
      let company_lower := pyLower company_name
      let additional_info := pyLower (rowGet headers row (str "Additional Info") [])
      let verification_source := pyLower (rowGet headers row (str "Verification Source") [])
      let combined := company_lower ++ [' '] ++ additional_info ++ [' '] ++ verification_source
      if api_only_keywords.any (fun k => isSubstr k combined) then false
      else if import_keywords.any (fun k => isSubstr k combined) then false
      else
        let product_name := pyLower (rowGet headers row (str "Product Name") [])
        let form := pyLower (rowGet headers row (str "Form") [])
        let strength := pyLower (rowGet headers row (str "Strength") [])
        let api_lower := pyLower api
        if !([product_name, form, strength, verification_source].any
            (fun field => isSubstr api_lower field)) then false
        else
          let url := pyStrip (rowGet headers row (str "URL") [])
          if url.isEmpty ||
             !((str "http://").isPrefixOf url || (str "https://").isPrefixOf url) then false
          else
            !(headers.contains (str "Manufacturing Location") &&
              (!(pyLower (rowGet headers row (str "Manufacturing Location") [])).isEmpty &&
               isSubstr (str "import")
                 (pyLower (rowGet headers row (str "Manufacturing Location") []))))

/-- `validate_and_filter_results` (lines 408-503). -/
def validate_and_filter_results (t : ParsedTable) (api : Str) : ParsedTable :=
  if t.rows.isEmpty then t
  else if requiredColumnsBuyer.any (fun c => !t.headers.contains c) then emptyTable
  else
    let valid := t.rows.filter (rowValidBuyer t.headers api)
    if valid.isEmpty then emptyTable else ⟨t.headers, valid⟩

/-- The prompt's column set (line 349), used for the concrete examples. -/
def buyerHeaders : List Str :=
  [str "Company", str "Product Name", str "Form", str "Strength",
   str "Manufacturing Location", str "Verification Source", str "Confidence (%)",
   str "URL", str "Additional Info"]

def buyerRow50 : List Str :=
  [str "Acme Pharma", str "aspirin 100mg", str "tablet", str "100 mg", str "Mumbai",
   str "fda", str "50", str "https://example.com", str "none"]

def buyerRow45 : List Str :=
  [str "Acme Pharma", str "aspirin 100mg", str "tablet", str "100 mg", str "Mumbai",
   str "fda", str "45%", str "https://example.com", str "none"]

example : parseConfidence (str "45%") = 45 := by decide
example : parseConfidence (str "50") = 50 := by decide
example : parseConfidence (str "n/a") = 0 := by decide

theorem rowValid_confidence_low {headers row : List Str} {api : Str}
    (h : parseConfidence (rowGet headers row (str "Confidence (%)") (str "0")) < 50) :
    rowValidBuyer headers api row = false := by
  unfold rowValidBuyer
  dsimp only
  by_cases hco : List.isEmpty (pyStrip (rowGet headers row (str "Company") [])) = true
  · rw [if_pos hco]
  · rw [if_neg hco, if_pos h]

/-- C9: the validator parses the confidence cell by stripping whitespace and
trailing '%' signs and reading the remainder as an integer (0 when not all
digits), and accepts a row only when that value is at least the hard-coded
minimum 50 — the boundary is inclusive: every surviving row has confidence
≥ 50, a row parsing below 50 is always rejected, "45%" (= 45) kills its row
while an otherwise-valid row with "50" is kept. -/
theorem validator_confidence :
    (∀ (t : ParsedTable) (api : Str) (row : List Str),
        row ∈ (validate_and_filter_results t api).rows →
        50 ≤ parseConfidence (rowGet t.headers row (str "Confidence (%)") (str "0"))) ∧
    (∀ (headers : List Str) (api : Str) (row : List Str),
        parseConfidence (rowGet headers row (str "Confidence (%)") (str "0")) < 50 →
        rowValidBuyer headers api row = false) ∧
    parseConfidence (str "45%") = 45 ∧
    parseConfidence (str "50") = 50 ∧
    validate_and_filter_results ⟨buyerHeaders, [buyerRow45]⟩ (str "aspirin") = emptyTable ∧
    validate_and_filter_results ⟨buyerHeaders, [buyerRow50]⟩ (str "aspirin") =
      ⟨buyerHeaders, [buyerRow50]⟩ := by
  refine ⟨?_, fun headers api row h => rowValid_confidence_low h,
    by decide, by decide, by decide, by decide⟩
  intro t api row hmem
  unfold validate_and_filter_results at hmem
  split at hmem
  · next hempty =>
    rw [List.isEmpty_iff.mp hempty] at hmem
    exact absurd hmem (List.not_mem_nil row)
  · split at hmem
    · exact absurd hmem (List.not_mem_nil row)
    · dsimp only at hmem
      split at hmem
      · exact absurd hmem (List.not_mem_nil row)
      · have hvalid := (List.mem_filter.mp hmem).2
        by_contra hlt
        rw [rowValid_confidence_low (by omega)] at hvalid
        exact absurd hvalid (by simp)

/-- C9 witness: the acceptance part applied to the concrete boundary row with
confidence "50". -/
theorem validator_confidence_w :
    50 ≤ parseConfidence (rowGet buyerHeaders buyerRow50 (str "Confidence (%)") (str "0")) :=
  validator_confidence.1 ⟨buyerHeaders, [buyerRow50]⟩ (str "aspirin") buyerRow50
    (by decide)

end SRF
